import Mathlib

/-!
Shallow embedding of `bg_remover.py` (background-remover pipeline).

The repository's own logic (constants, `process_image`, the batch loop in
`process_and_display_images`, `enhance_image`, `apply_background_color`,
`img_to_bytes`, `download_result`) is translated directly from the source.
External collaborators (PIL decode/encode, the rembg model, the Lanczos
resampler) are parameters gathered in the `Ext` structure; the PIL imaging
primitives that the claims inspect (alpha compositing, brightness/contrast
blending) are embedded as arithmetic on 8-bit channel values, following the
spec's description of the imaging-library collaborator (straight-alpha
compositing with rounding, linear blend against a degenerate image with
clamping). Python floats are modelled as exact rationals with explicit
truncation where the source truncates.
-/

namespace BgRemover

/-- `MAX_FILES = 5` from the source. -/
def MAX_FILES : ℕ := 5

/-- `DEFAULT_BRIGHTNESS = 1.0` from the source. -/
def DEFAULT_BRIGHTNESS : ℚ := 1

/-- `DEFAULT_ENHANCEMENT = 1.0` from the source. -/
def DEFAULT_ENHANCEMENT : ℚ := 1

/-- `DEFAULT_QUALITY = 95` from the source. -/
def DEFAULT_QUALITY : ℕ := 95

/-- One RGBA pixel; channel values are bytes (0..255), carried as `ℕ`. -/
structure RGBA where
  r : ℕ
  g : ℕ
  b : ℕ
  a : ℕ
deriving DecidableEq, Repr

/-- A solid background colour as picked in the UI (`#RRGGBB`, always opaque). -/
structure RGB where
  r : ℕ
  g : ℕ
  b : ℕ
deriving DecidableEq, Repr

/-- An in-memory RGBA image: a size plus row-major pixel data. -/
structure Img where
  width : ℕ
  height : ℕ
  pixels : List RGBA
deriving DecidableEq, Repr

/-- The possible values of the `size_ratio` argument in the source: the
string `"original"` (checked first in `process_image`), a two-element tuple
(the default `(4, 3)`), or a three-element tuple from the UI's selectbox
(`(w, h, label)`).  Python tuple equality makes a three-element tuple
unequal to every two-element tuple, which the inductive's equality mirrors. -/
inductive SizeRatio
  | original
  | pair (w h : ℕ)
  | triple (w h : ℕ) (label : String)
deriving DecidableEq, Repr

/-- `DEFAULT_SIZE_RATIO = (4, 3)` from the source. -/
def DEFAULT_SIZE_RATIO : SizeRatio := SizeRatio.pair 4 3

/-- PIL resampling filters; the source only ever passes `Image.LANCZOS`. -/
inductive ResampleFilter
  | nearest
  | box
  | bilinear
  | hamming
  | bicubic
  | lanczos
deriving DecidableEq, Repr

/-- An uploaded file: raw bytes plus a filename (`file.getvalue()`, `file.name`). -/
structure UploadedFile where
  name : String
  content : List ℕ
deriving DecidableEq, Repr

/-- The external collaborators of the pipeline: image decoding
(`Image.open(...).convert("RGBA")`), the rembg `remove` call on raw bytes,
the resampler's pixel production, and the PNG serializer
(`img.save(buf, format="PNG", quality=q)`).  `Except.error` models a raised
exception (e.g. a decode failure on malformed bytes). -/
structure Ext where
  decode : List ℕ → Except String Img
  removeFn : List ℕ → Except String (List ℕ)
  resample : ResampleFilter → Img → ℕ → ℕ → List RGBA
  pngSave : Img → ℕ → List ℕ

/-- Division with round-half-up, used for 8-bit compositing arithmetic. -/
def natRoundDiv (n d : ℕ) : ℕ := (n + d / 2) / d

/-- Conversion of a blended rational channel value back to a byte: clamp to
[0, 255] and truncate, as the imaging library's blend does. -/
def clampByteQ (t : ℚ) : ℕ :=
  if t ≤ 0 then 0 else if 255 ≤ t then 255 else (⌊t⌋).toNat

/-- `Image.blend(im1, im2, f)` on one channel:
`out = in1 + f * (in2 - in1)`, clamped and truncated to a byte. -/
def blendChannel (f : ℚ) (c1 c2 : ℕ) : ℕ :=
  clampByteQ ((c1 : ℚ) + f * ((c2 : ℚ) - (c1 : ℚ)))

/-- ITU-R 601-2 luma used by the imaging library's "L" conversion. -/
def lum (p : RGBA) : ℕ := (19595 * p.r + 38470 * p.g + 7471 * p.b + 32768) / 65536

/-- `int(ImageStat.Stat(image.convert("L")).mean[0] + 0.5)` from the
contrast enhancer: the mean luma, rounded half-up. -/
def meanL (img : Img) : ℕ :=
  (⌊(((img.pixels.map lum).sum : ℚ) / ((img.pixels.length : ℕ) : ℚ)) + 1 / 2⌋).toNat

/-- `ImageEnhance.Brightness(image).enhance(f)`: blend the image against a
black degenerate image whose alpha channel is copied from the input, so the
colour channels are scaled by `f` and alpha is preserved. -/
def brightnessEnhance (img : Img) (f : ℚ) : Img :=
  { img with
    pixels := img.pixels.map fun p =>
      RGBA.mk (blendChannel f 0 p.r) (blendChannel f 0 p.g) (blendChannel f 0 p.b)
        (blendChannel f p.a p.a) }

/-- `ImageEnhance.Contrast(image).enhance(f)`: blend the image against a
solid mean-luma gray degenerate image whose alpha channel is copied from
the input. -/
def contrastEnhance (img : Img) (f : ℚ) : Img :=
  let m := meanL img
  { img with
    pixels := img.pixels.map fun p =>
      RGBA.mk (blendChannel f m p.r) (blendChannel f m p.g) (blendChannel f m p.b)
        (blendChannel f p.a p.a) }

/-- `enhance_image` from the source: brightness first, then contrast. -/
def enhance_image (image : Img) (brightness enhancement : ℚ) : Img :=
  contrastEnhance (brightnessEnhance image brightness) enhancement

/-- Straight-alpha "over" compositing of a foreground pixel `fg` onto a
background pixel `bg`, with byte arithmetic rounded half-up
(`Image.alpha_composite` semantics as described by the spec's
imaging-primitives collaborator): the composite alpha is
`fgA + bgA * (1 - fgA)` and each colour channel is the alpha-weighted
average of the two inputs. -/
def alphaCompositePixel (bg fg : RGBA) : RGBA :=
  if fg.a * 255 + bg.a * (255 - fg.a) = 0 then RGBA.mk 0 0 0 0
  else
    RGBA.mk
      (natRoundDiv (255 * (fg.r * fg.a) + bg.r * (bg.a * (255 - fg.a)))
        (fg.a * 255 + bg.a * (255 - fg.a)))
      (natRoundDiv (255 * (fg.g * fg.a) + bg.g * (bg.a * (255 - fg.a)))
        (fg.a * 255 + bg.a * (255 - fg.a)))
      (natRoundDiv (255 * (fg.b * fg.a) + bg.b * (bg.a * (255 - fg.a)))
        (fg.a * 255 + bg.a * (255 - fg.a)))
      (natRoundDiv (fg.a * 255 + bg.a * (255 - fg.a)) 255)

/-- `Image.new("RGBA", (w, h), color)` with an opaque colour. -/
def imageNew (w h : ℕ) (c : RGB) : Img :=
  Img.mk w h (List.replicate (w * h) (RGBA.mk c.r c.g c.b 255))

/-- `Image.alpha_composite(background, image)`: pixelwise over-compositing. -/
def alpha_composite (bg fg : Img) : Img :=
  Img.mk bg.width bg.height (List.zipWith alphaCompositePixel bg.pixels fg.pixels)

/-- `apply_background_color` from the source: build an opaque solid
background of the image's size and composite the image over it. -/
def apply_background_color (image : Img) (background_color : RGB) : Img :=
  alpha_composite (imageNew image.width image.height background_color) image

/-- Modelled from the spec: the per-channel result of compositing over a
fully opaque background, `out = foreground * alpha + background * (1 - alpha)`,
in byte arithmetic rounded half-up.  Used to compare the embedded
`apply_background_color` against the spec's stated formula. -/
def specCompositeChannel (bgc fgc a : ℕ) : ℕ :=
  natRoundDiv (fgc * a + bgc * (255 - a)) 255

/-- `int((original_height / ratio_height) * ratio_width)` from the source,
with Python float arithmetic modelled as exact rationals and `int(...)` as
truncation. -/
def newWidth (original_height ratio_height ratio_width : ℕ) : ℕ :=
  (⌊((original_height : ℚ) / (ratio_height : ℚ)) * (ratio_width : ℚ)⌋).toNat

/-- Modelled from the spec: `new_width = round(original_height / ratio_height
* ratio_width)` — rounding to the nearest integer, as §4.1 step 5 states. -/
def specNewWidth (original_height ratio_height ratio_width : ℕ) : ℤ :=
  round (((original_height : ℚ) / (ratio_height : ℚ)) * (ratio_width : ℚ))

/-- The `new_size` computation of `process_image` (lines 178-188): the
string `"original"` keeps the original size, the default ratio leaves
`new_size = None`, and any other ratio (two- or three-element) derives the
width from the original height. -/
def computeNewSize (original_width original_height : ℕ) (size_ratio : SizeRatio) :
    Option (ℕ × ℕ) :=
  match size_ratio with
  | SizeRatio.original => some (original_width, original_height)
  | SizeRatio.triple rw rh _ => some (newWidth original_height rh rw, original_height)
  | SizeRatio.pair rw rh =>
    if SizeRatio.pair rw rh = DEFAULT_SIZE_RATIO then none
    else some (newWidth original_height rh rw, original_height)

/-- `img.resize(new_size, filter)`: the output has exactly the requested
size; pixel content comes from the external resampler. -/
def resize (E : Ext) (img : Img) (sz : ℕ × ℕ) (f : ResampleFilter) : Img :=
  Img.mk sz.1 sz.2 (E.resample f img sz.1 sz.2)

/-- `remove_background` from the source: run the rembg `remove` call on the
raw bytes and decode its output as RGBA. -/
def remove_background (E : Ext) (image_bytes : List ℕ) : Except String Img := do
  let result ← E.removeFn image_bytes
  E.decode result

/-- Lines 189-190 of the source: `if new_size is not None: result_image =
result_image.resize(new_size, Image.LANCZOS)`. -/
def afterResize (E : Ext) (img : Img) (new_size : Option (ℕ × ℕ)) : Img :=
  match new_size with
  | some sz => resize E img sz ResampleFilter.lanczos
  | none => img

/-- Lines 191-192 of the source: `if add_background_color: result_image =
apply_background_color(result_image, background_color)`. -/
def applyColorStep (img : Img) (add_background_color : Bool) (background_color : RGB) : Img :=
  if add_background_color then apply_background_color img background_color else img

/-- `process_image` from the source.  The `quality` argument is accepted and
never used, exactly as in the source.  An `Except.error` models an
exception escaping the pipeline (e.g. a decode failure). -/
def process_image (E : Ext) (file : UploadedFile) (add_background_color : Bool)
    (background_color : RGB) (brightness enhancement : ℚ) (quality : ℕ)
    (size_ratio : SizeRatio) : Except String (Img × Img × String) := do
  let original_image ← E.decode file.content
  let original_width := original_image.width
  let original_height := original_image.height
  let removed ← remove_background E file.content
  let enhanced := enhance_image removed brightness enhancement
  let new_size := computeNewSize original_width original_height size_ratio
  let resized := afterResize E enhanced new_size
  let result_image := applyColorStep resized add_background_color background_color
  return (original_image, result_image, file.name)

/-- Lines 135-137 of the source: the list of files actually submitted to the
executor — the first `MAX_FILES` when the upload exceeds the cap. -/
def truncatedFiles (uploaded_files : List UploadedFile) : List UploadedFile :=
  if MAX_FILES < uploaded_files.length then uploaded_files.take MAX_FILES
  else uploaded_files

/-- Whether the truncation warning (`st.warning`) is shown. -/
def truncationWarned (uploaded_files : List UploadedFile) : Bool :=
  decide (MAX_FILES < uploaded_files.length)

/-- The `as_completed` display loop (lines 154-161): results are consumed in
completion order; `future.result()` re-raises the first failure, which
aborts the loop, so later completions are never displayed.  Returns the
displayed `(original, result, name)` triples and the escaping error, if any. -/
def displayCompleted (proc : UploadedFile → Except String (Img × Img × String)) :
    List UploadedFile → List (Img × Img × String) × Option String
  | [] => ([], none)
  | f :: fs =>
    match proc f with
    | Except.error e => ([], some e)
    | Except.ok r =>
      let rest := displayCompleted proc fs
      (r :: rest.1, rest.2)

/-- `process_and_display_images` from the source, after the upload/button
guards: each (truncated) file is submitted independently and results are
displayed in completion order.  The nondeterministic completion order is an
explicit argument; theorems constrain it to be a permutation of the
truncated upload list. -/
def process_and_display_images (E : Ext) (add_background_color : Bool)
    (background_color : RGB) (brightness enhancement : ℚ) (quality : ℕ)
    (size_ratio : SizeRatio) (completion_order : List UploadedFile) :
    List (Img × Img × String) × Option String :=
  displayCompleted
    (fun f =>
      process_image E f add_background_color background_color brightness enhancement
        quality size_ratio)
    completion_order

/-- `img_to_bytes` from the source: PNG serialization; the `save` call
passes the constant `DEFAULT_QUALITY`, and the function takes no quality
argument of its own. -/
def img_to_bytes (E : Ext) (img : Img) : List ℕ :=
  E.pngSave img DEFAULT_QUALITY

/-- Index of the last occurrence of a character, as `str.rfind` does. -/
def rfindChar (c : Char) : List Char → Option ℕ
  | [] => none
  | x :: xs =>
    match rfindChar c xs with
    | some i => some (i + 1)
    | none => if x = c then some 0 else none

/-- Drop everything up to and including the separator at the given index. -/
def dropUntilSep (cs : List Char) : Option ℕ → List Char
  | some i => cs.drop (i + 1)
  | none => cs

/-- The final path component (`PurePosixPath.name`): everything after the
last separator. -/
def lastComponent (cs : List Char) : List Char :=
  dropUntilSep cs (rfindChar '/' cs)

/-- The stem of a bare filename, given the index of its last dot: the prefix
before the dot when the dot sits strictly inside the name, otherwise the
whole name (pathlib's rule). -/
def stemFrom (nm : List Char) : Option ℕ → String
  | some i => if 0 < i ∧ i + 1 < nm.length then String.mk (nm.take i) else String.mk nm
  | none => String.mk nm

/-- `Path(s).stem` from pathlib: the final component without its suffix. -/
def pathStem (s : String) : String :=
  stemFrom (lastComponent s.data) (rfindChar '.' (lastComponent s.data))

/-- The record handed to `st.download_button`. -/
structure DownloadButton where
  label : String
  payload : List ℕ
  file_name : String
  mime : String
deriving DecidableEq, Repr

/-- `download_result` from the source. -/
def download_result (E : Ext) (image : Img) (name : String) : DownloadButton :=
  DownloadButton.mk "Unduh Hasil" (img_to_bytes E image)
    (pathStem name ++ "_nobg.png") "image/png"

/-- All channel values of every pixel are bytes. -/
def validImg (img : Img) : Prop :=
  ∀ p ∈ img.pixels, p.r ≤ 255 ∧ p.g ≤ 255 ∧ p.b ≤ 255 ∧ p.a ≤ 255

instance (img : Img) : Decidable (validImg img) := by
  unfold validImg; infer_instance

/-- The `(width, height)` ratio carried by a `size_ratio` tuple (either
tuple length); `"original"` carries none. -/
def ratioOf : SizeRatio → Option (ℕ × ℕ)
  | SizeRatio.original => none
  | SizeRatio.pair w h => some (w, h)
  | SizeRatio.triple w h _ => some (w, h)

/-! ### Concrete fixtures used by witnesses and counterexamples -/

/-- A concrete 4×6 image. -/
def imgW : Img := Img.mk 4 6 (List.replicate 24 (RGBA.mk 5 6 7 8))

/-- Concrete collaborators on which every call succeeds. -/
def extOk : Ext :=
  Ext.mk (fun _ => Except.ok imgW) (fun b => Except.ok b)
    (fun _ _ w h => List.replicate (w * h) (RGBA.mk 0 0 0 0)) (fun _ _ => [137, 80, 78, 71])

/-- Concrete collaborators whose decoder fails on the byte string `[0]`. -/
def extFail : Ext :=
  Ext.mk (fun b => if b = [0] then Except.error "DecodeError" else Except.ok imgW)
    (fun b => Except.ok b)
    (fun _ _ w h => List.replicate (w * h) (RGBA.mk 0 0 0 0)) (fun _ _ => [])

/-- A concrete well-formed upload. -/
def fileA : UploadedFile := UploadedFile.mk "photo.jpg" [1]

/-- A second concrete well-formed upload. -/
def fileB : UploadedFile := UploadedFile.mk "pic.png" [2]

/-- A concrete upload whose bytes `extFail` cannot decode. -/
def fileBad : UploadedFile := UploadedFile.mk "bad.png" [0]

/-- A concrete background colour (white). -/
def colW : RGB := RGB.mk 255 255 255

/-- Concrete image used to witness C3. -/
def imgC3 : Img := Img.mk 2 1 [RGBA.mk 10 20 30 0, RGBA.mk 200 100 50 128]

/-- Concrete colour used to witness C3. -/
def colC3 : RGB := RGB.mk 0 0 255

/-- Concrete image used to witness C6. -/
def imgC6 : Img :=
  Img.mk 2 2 [RGBA.mk 255 0 7 31, RGBA.mk 1 2 3 4, RGBA.mk 9 8 7 255, RGBA.mk 0 0 0 0]

/-! ### Helper lemmas -/

lemma apply_background_color_width (img : Img) (c : RGB) :
    (apply_background_color img c).width = img.width := rfl

lemma apply_background_color_height (img : Img) (c : RGB) :
    (apply_background_color img c).height = img.height := rfl

lemma enhance_image_width (img : Img) (b e : ℚ) : (enhance_image img b e).width = img.width :=
  rfl

lemma enhance_image_height (img : Img) (b e : ℚ) :
    (enhance_image img b e).height = img.height := rfl

lemma resize_width (E : Ext) (img : Img) (sz : ℕ × ℕ) (f : ResampleFilter) :
    (resize E img sz f).width = sz.1 := rfl

lemma resize_height (E : Ext) (img : Img) (sz : ℕ × ℕ) (f : ResampleFilter) :
    (resize E img sz f).height = sz.2 := rfl

lemma applyColorStep_width (img : Img) (abc : Bool) (c : RGB) :
    (applyColorStep img abc c).width = img.width := by
  cases abc <;> rfl

lemma applyColorStep_height (img : Img) (abc : Bool) (c : RGB) :
    (applyColorStep img abc c).height = img.height := by
  cases abc <;> rfl

lemma newWidth_eq_div (oH rh rw : ℕ) : newWidth oH rh rw = oH * rw / rh := by
  unfold newWidth
  have h : ((oH : ℚ) / (rh : ℚ)) * (rw : ℚ) = ((oH * rw : ℕ) : ℚ) / ((rh : ℕ) : ℚ) := by
    push_cast; ring
  rw [h, Int.floor_toNat]
  exact_mod_cast Nat.floor_div_nat ((oH * rw : ℕ) : ℚ) rh

lemma computeNewSize_requested (oW oH : ℕ) (sr : SizeRatio) (a b : ℕ)
    (hratio : ratioOf sr = some (a, b)) (hne : sr ≠ DEFAULT_SIZE_RATIO) :
    computeNewSize oW oH sr = some (newWidth oH b a, oH) := by
  cases sr with
  | original => simp [ratioOf] at hratio
  | pair w h =>
    obtain ⟨rfl, rfl⟩ : w = a ∧ h = b := by simpa [ratioOf] using hratio
    simp [computeNewSize, hne]
  | triple w h lbl =>
    obtain ⟨rfl, rfl⟩ : w = a ∧ h = b := by simpa [ratioOf] using hratio
    rfl

lemma process_image_name (E : Ext) (file : UploadedFile) (abc : Bool) (bc : RGB)
    (br en : ℚ) (q : ℕ) (sr : SizeRatio) (r : Img × Img × String)
    (h : process_image E file abc bc br en q sr = Except.ok r) : r.2.2 = file.name := by
  unfold process_image at h
  cases h1 : E.decode file.content with
  | error e => rw [h1] at h; exact absurd h (by simp [Bind.bind, Except.bind])
  | ok o =>
    rw [h1] at h
    cases h2 : remove_background E file.content with
    | error e => rw [h2] at h; exact absurd h (by simp [Bind.bind, Except.bind])
    | ok m =>
      rw [h2] at h
      have h3 : (o, applyColorStep
          (afterResize E (enhance_image m br en) (computeNewSize o.width o.height sr))
          abc bc, file.name) = r := Except.ok.inj h
      rw [← h3]

lemma displayCompleted_all_ok (proc : UploadedFile → Except String (Img × Img × String))
    (l : List UploadedFile) (h : ∀ f ∈ l, ∃ r, proc f = Except.ok r)
    (hname : ∀ f r, proc f = Except.ok r → r.2.2 = f.name) :
    (displayCompleted proc l).2 = none ∧
    (displayCompleted proc l).1.length = l.length ∧
    (displayCompleted proc l).1.map (fun r => r.2.2) = l.map fun f => f.name := by
  induction l with
  | nil => exact ⟨rfl, rfl, rfl⟩
  | cons f fs ih =>
    obtain ⟨r, hr⟩ := h f (by simp)
    have hrest := ih fun g hg => h g (by simp [hg])
    unfold displayCompleted
    rw [hr]
    exact ⟨hrest.1, by simp [hrest.2.1], by simp [hrest.2.2, hname f r hr]⟩

lemma displayCompleted_abort (proc : UploadedFile → Except String (Img × Img × String))
    (pre post : List UploadedFile) (bad : UploadedFile) (e : String)
    (hpre : ∀ f ∈ pre, ∃ r, proc f = Except.ok r)
    (hbad : proc bad = Except.error e) :
    (displayCompleted proc (pre ++ bad :: post)).2 = some e ∧
    (displayCompleted proc (pre ++ bad :: post)).1.length = pre.length := by
  induction pre with
  | nil =>
    simp only [List.nil_append]
    unfold displayCompleted
    rw [hbad]
    exact ⟨rfl, rfl⟩
  | cons f fs ih =>
    obtain ⟨r, hr⟩ := hpre f (by simp)
    have ihh := ih fun g hg => hpre g (by simp [hg])
    simp only [List.cons_append]
    unfold displayCompleted
    rw [hr]
    exact ⟨ihh.1, by simp [ihh.2]⟩

lemma rfindChar_eq_none (c : Char) (l : List Char) (h : c ∉ l) : rfindChar c l = none := by
  induction l with
  | nil => rfl
  | cons x xs ih =>
    unfold rfindChar
    rw [ih fun hx => h (by simp [hx])]
    rw [if_neg fun hx => h (by simp [hx])]

lemma rfindChar_append_sep (c : Char) (stem ext : List Char) (hext : c ∉ ext) :
    rfindChar c (stem ++ c :: ext) = some stem.length := by
  induction stem with
  | nil =>
    simp only [List.nil_append]
    unfold rfindChar
    rw [rfindChar_eq_none c ext hext]
    simp
  | cons x xs ih =>
    simp only [List.cons_append]
    unfold rfindChar
    rw [ih]
    simp

lemma natRoundDiv_mul255 (X : ℕ) : natRoundDiv (255 * X) (255 * 255) = natRoundDiv X 255 := by
  unfold natRoundDiv
  omega

lemma map_id_of_mem {α : Type} (l : List α) (f : α → α) (h : ∀ x ∈ l, f x = x) :
    l.map f = l := by
  induction l with
  | nil => rfl
  | cons x xs ih =>
    simp only [List.map_cons]
    rw [h x (by simp), ih fun y hy => h y (by simp [hy])]

lemma alphaCompositePixel_fullAlpha (bg fg : RGBA) (hbg : bg.a = 255) (hfg : fg.a ≤ 255) :
    alphaCompositePixel bg fg =
      RGBA.mk (specCompositeChannel bg.r fg.r fg.a) (specCompositeChannel bg.g fg.g fg.a)
        (specCompositeChannel bg.b fg.b fg.a) 255 := by
  unfold alphaCompositePixel specCompositeChannel
  rw [hbg]
  have hanum : fg.a * 255 + 255 * (255 - fg.a) = 255 * 255 := by omega
  rw [hanum, if_neg (by norm_num)]
  have hch : ∀ c fc : ℕ,
      255 * (fc * fg.a) + c * (255 * (255 - fg.a)) = 255 * (fc * fg.a + c * (255 - fg.a)) := by
    intro c fc; ring
  rw [hch bg.r fg.r, hch bg.g fg.g, hch bg.b fg.b, natRoundDiv_mul255, natRoundDiv_mul255,
    natRoundDiv_mul255]
  norm_num [natRoundDiv]

lemma zip_composite_eq (bgp : RGBA) (hbg : bgp.a = 255) (n : ℕ) (ps : List RGBA)
    (h : ∀ p ∈ ps, p.a ≤ 255) :
    List.zipWith alphaCompositePixel (List.replicate n bgp) ps =
      List.zipWith
        (fun bg fg =>
          RGBA.mk (specCompositeChannel bg.r fg.r fg.a) (specCompositeChannel bg.g fg.g fg.a)
            (specCompositeChannel bg.b fg.b fg.a) 255)
        (List.replicate n bgp) ps := by
  induction ps generalizing n with
  | nil => simp
  | cons p ps ih =>
    cases n with
    | zero => simp
    | succ n =>
      simp only [List.replicate_succ, List.zipWith_cons_cons]
      rw [alphaCompositePixel_fullAlpha bgp p hbg (h p (by simp)),
        ih n fun q hq => h q (by simp [hq])]

lemma zip_composite_alpha (bgp : RGBA) (hbg : bgp.a = 255) (n : ℕ) (ps : List RGBA)
    (h : ∀ p ∈ ps, p.a ≤ 255) :
    ∀ q ∈ List.zipWith alphaCompositePixel (List.replicate n bgp) ps, q.a = 255 := by
  induction ps generalizing n with
  | nil => simp
  | cons p ps ih =>
    cases n with
    | zero => simp
    | succ n =>
      simp only [List.replicate_succ, List.zipWith_cons_cons, List.mem_cons]
      rintro q (rfl | hq)
      · rw [alphaCompositePixel_fullAlpha bgp p hbg (h p (by simp))]
      · exact ih n (fun x hx => h x (by simp [hx])) q hq

lemma blendChannel_one (c1 c2 : ℕ) (h : c2 ≤ 255) : blendChannel 1 c1 c2 = c2 := by
  unfold blendChannel clampByteQ
  have h1 : (c1 : ℚ) + 1 * ((c2 : ℚ) - (c1 : ℚ)) = (c2 : ℚ) := by ring
  rw [h1]
  split_ifs with h2 h3
  · have hz : c2 = 0 := by exact_mod_cast le_antisymm h2 (Nat.cast_nonneg c2)
    omega
  · have hc : 255 ≤ c2 := by exact_mod_cast h3
    omega
  · simp

lemma brightnessEnhance_one (img : Img) (hv : validImg img) :
    brightnessEnhance img 1 = img := by
  obtain ⟨w, h, ps⟩ := img
  unfold brightnessEnhance
  simp only
  refine congrArg (Img.mk w h) (map_id_of_mem _ _ fun p hp => ?_)
  obtain ⟨h1, h2, h3, h4⟩ := hv p hp
  obtain ⟨pr, pg, pb, pa⟩ := p
  simp only at h1 h2 h3 h4 ⊢
  rw [blendChannel_one 0 pr h1, blendChannel_one 0 pg h2, blendChannel_one 0 pb h3,
    blendChannel_one pa pa h4]

lemma contrastEnhance_one (img : Img) (hv : validImg img) :
    contrastEnhance img 1 = img := by
  obtain ⟨w, h, ps⟩ := img
  unfold contrastEnhance
  simp only
  refine congrArg (Img.mk w h) (map_id_of_mem _ _ fun p hp => ?_)
  obtain ⟨h1, h2, h3, h4⟩ := hv p hp
  obtain ⟨pr, pg, pb, pa⟩ := p
  simp only at h1 h2 h3 h4 ⊢
  rw [blendChannel_one _ pr h1, blendChannel_one _ pg h2, blendChannel_one _ pb h3,
    blendChannel_one pa pa h4]

/-! ### Claim theorems -/

/-- C3: for every input image (with byte-valued alpha) and every background
colour, `apply_background_color` composites the foreground over a fully
opaque solid-colour background of the same size by standard alpha
compositing (`out = foreground * alpha + background * (1 - alpha)` per
channel), and every pixel of the result has alpha 255. -/
theorem apply_background_color_fullAlpha (img : Img) (c : RGB)
    (hv : ∀ p ∈ img.pixels, p.a ≤ 255) :
    (∀ p ∈ (apply_background_color img c).pixels, p.a = 255) ∧
    (apply_background_color img c).pixels =
      List.zipWith
        (fun bg fg =>
          RGBA.mk (specCompositeChannel bg.r fg.r fg.a) (specCompositeChannel bg.g fg.g fg.a)
            (specCompositeChannel bg.b fg.b fg.a) 255)
        (List.replicate (img.width * img.height) (RGBA.mk c.r c.g c.b 255)) img.pixels := by
  unfold apply_background_color alpha_composite imageNew
  exact ⟨zip_composite_alpha _ rfl _ _ hv, zip_composite_eq _ rfl _ _ hv⟩

/-- Witness for C3 at a concrete image and colour. -/
theorem apply_background_color_fullAlpha_witness :
    (∀ p ∈ (apply_background_color imgC3 colC3).pixels, p.a = 255) ∧
    (apply_background_color imgC3 colC3).pixels =
      List.zipWith
        (fun bg fg =>
          RGBA.mk (specCompositeChannel bg.r fg.r fg.a) (specCompositeChannel bg.g fg.g fg.a)
            (specCompositeChannel bg.b fg.b fg.a) 255)
        (List.replicate (imgC3.width * imgC3.height) (RGBA.mk colC3.r colC3.g colC3.b 255))
        imgC3.pixels :=
  apply_background_color_fullAlpha imgC3 colC3 (by decide)

/-- C6: applying `enhance_image` with brightness factor 1 and contrast
factor 1 is the identity on every image with byte-valued channels. -/
theorem enhance_image_noop (img : Img) (hv : validImg img) :
    enhance_image img 1 1 = img := by
  unfold enhance_image
  rw [brightnessEnhance_one img hv, contrastEnhance_one img hv]

/-- Witness for C6 at a concrete image. -/
theorem enhance_image_noop_witness : enhance_image imgC6 1 1 = imgC6 :=
  enhance_image_noop imgC6 (by decide)

/-- C1: for every valid input (decoding and background removal succeed and
removal preserves the original dimensions), `process_image` returns an
output image whose dimensions are `(computed_new_width, original_height)`
when a size ratio is requested — height is always preserved — and the
original dimensions when the ratio is the default `(4, 3)` or
`"original"`. -/
theorem process_image_dims (E : Ext) (file : UploadedFile) (abc : Bool) (bc : RGB)
    (br en : ℚ) (q : ℕ) (sr : SizeRatio) (orig removed : Img)
    (hdec : E.decode file.content = Except.ok orig)
    (hrem : remove_background E file.content = Except.ok removed)
    (hw : removed.width = orig.width) (hh : removed.height = orig.height) :
    ∃ res : Img,
      process_image E file abc bc br en q sr = Except.ok (orig, res, file.name) ∧
        (sr = DEFAULT_SIZE_RATIO ∨ sr = SizeRatio.original →
          res.width = orig.width ∧ res.height = orig.height) ∧
        ∀ rw rh, ratioOf sr = some (rw, rh) → sr ≠ DEFAULT_SIZE_RATIO →
          res.width = newWidth orig.height rh rw ∧ res.height = orig.height := by
  unfold process_image
  rw [hdec, hrem]
  refine ⟨_, rfl, ?_, ?_⟩
  · rintro (rfl | rfl)
    · have hns : computeNewSize orig.width orig.height DEFAULT_SIZE_RATIO = none := rfl
      rw [hns]
      simp [applyColorStep_width, applyColorStep_height, afterResize, enhance_image_width,
        enhance_image_height, hw, hh]
    · have hns : computeNewSize orig.width orig.height SizeRatio.original =
          some (orig.width, orig.height) := rfl
      rw [hns]
      simp [applyColorStep_width, applyColorStep_height, afterResize, resize_width,
        resize_height]
  · intro a b hratio hne
    rw [computeNewSize_requested orig.width orig.height sr a b hratio hne]
    simp [applyColorStep_width, applyColorStep_height, afterResize, resize_width,
      resize_height]

/-- Witness for C1: a concrete run with a requested 16:9 ratio. -/
theorem process_image_dims_witness :
    ∃ res : Img,
      process_image extOk fileA true colW 1 1 95 (SizeRatio.triple 16 9 "16:9 (Landscape)") =
          Except.ok (imgW, res, fileA.name) ∧
        res.width = newWidth imgW.height 9 16 ∧ res.height = imgW.height := by
  obtain ⟨res, h1, _, h3⟩ :=
    process_image_dims extOk fileA true colW 1 1 95 (SizeRatio.triple 16 9 "16:9 (Landscape)")
      imgW imgW rfl rfl rfl rfl
  exact ⟨res, h1, h3 16 9 rfl (by decide)⟩

/-- C7 counterexample: with original height 10 and requested ratio 3:4 the
code computes `int(10 / 4 * 3) = 7`, while rounding to the nearest integer,
as the claim states, gives 8. -/
theorem newWidth_round_counterexample :
    computeNewSize 5 10 (SizeRatio.triple 3 4 "3:4 (Potrait)") = some (7, 10) ∧
    specNewWidth 10 4 3 = 8 ∧ (7 : ℤ) ≠ 8 := by
  refine ⟨?_, ?_, by decide⟩
  · show some (newWidth 10 4 3, 10) = some (7, 10)
    rw [newWidth_eq_div]
  · unfold specNewWidth
    rw [round_eq]
    norm_num

/-- C7 amended: the resized width is `int((original_height / ratio_height) *
ratio_width)` — truncating division, not rounding to the nearest integer —
and `new_height` stays at the original height. -/
theorem newWidth_truncation (oH rh rw : ℕ) :
    newWidth oH rh rw = oH * rw / rh ∧
    ∀ oW lbl, computeNewSize oW oH (SizeRatio.triple rw rh lbl) =
      some (oH * rw / rh, oH) := by
  refine ⟨newWidth_eq_div oH rh rw, fun oW lbl => ?_⟩
  simp [computeNewSize, newWidth_eq_div]

/-- C10: no resize happens exactly when `size_ratio` is the default
two-element `(4, 3)` — then the output keeps the background-removed image's
dimensions — while every other value, including the three-element UI tuple
`(4, 3, "4:3 (Landscape)")`, triggers a resize. -/
theorem no_resize_iff_default (E : Ext) (file : UploadedFile) (abc : Bool) (bc : RGB)
    (br en : ℚ) (q : ℕ) (orig removed : Img)
    (hdec : E.decode file.content = Except.ok orig)
    (hrem : remove_background E file.content = Except.ok removed) :
    (∀ oW oH sr, computeNewSize oW oH sr = none ↔ sr = DEFAULT_SIZE_RATIO) ∧
    (∃ res : Img,
      process_image E file abc bc br en q DEFAULT_SIZE_RATIO =
          Except.ok (orig, res, file.name) ∧
        res.width = removed.width ∧ res.height = removed.height) ∧
    ∀ oW oH lbl, computeNewSize oW oH (SizeRatio.triple 4 3 lbl) =
      some (newWidth oH 3 4, oH) := by
  refine ⟨?_, ?_, fun oW oH lbl => rfl⟩
  · intro oW oH sr
    cases sr with
    | original => simp [computeNewSize, DEFAULT_SIZE_RATIO]
    | pair w h =>
      simp only [computeNewSize]
      split_ifs with hd <;> simp [hd]
    | triple w h lbl => simp [computeNewSize, DEFAULT_SIZE_RATIO]
  · unfold process_image
    rw [hdec, hrem]
    have hns : computeNewSize orig.width orig.height DEFAULT_SIZE_RATIO = none := rfl
    refine ⟨_, rfl, ?_⟩
    rw [hns]
    simp [applyColorStep_width, applyColorStep_height, afterResize, enhance_image_width,
      enhance_image_height]

/-- C4: at most `MAX_FILES` images are ever submitted to the executor; a
batch of more than `MAX_FILES` uploads is truncated to exactly the first 5
with a warning, not rejected. -/
theorem batch_truncation (uploaded_files : List UploadedFile) :
    (truncatedFiles uploaded_files).length ≤ MAX_FILES ∧
    (MAX_FILES < uploaded_files.length →
      truncatedFiles uploaded_files = uploaded_files.take 5 ∧
      (truncatedFiles uploaded_files).length = 5 ∧
      truncationWarned uploaded_files = true) := by
  have h5 : MAX_FILES = 5 := rfl
  unfold truncatedFiles truncationWarned
  rw [h5]
  split_ifs with hlt
  · refine ⟨?_, fun h => ⟨rfl, ?_, decide_eq_true hlt⟩⟩
    · simp only [List.length_take]
      omega
    · simp only [List.length_take]
      omega
  · refine ⟨?_, fun h => absurd h hlt⟩
    omega

/-- Concrete batch of six uploads used to witness C4. -/
def files6 : List UploadedFile :=
  [fileA, fileB, fileBad, UploadedFile.mk "d.png" [3], UploadedFile.mk "e.png" [4],
    UploadedFile.mk "f.png" [5]]

/-- Witness for C4 at a concrete six-element batch. -/
theorem batch_truncation_witness :
    (truncatedFiles files6).length ≤ MAX_FILES ∧
    truncatedFiles files6 = files6.take 5 ∧ (truncatedFiles files6).length = 5 ∧
    truncationWarned files6 = true :=
  ⟨(batch_truncation files6).1, (batch_truncation files6).2 (by decide)⟩

/-- C5: for a batch of at most `MAX_FILES` images on which every per-image
pipeline succeeds, the displayed results number exactly one per input, and
the multiset of result filenames is a permutation of the multiset of input
filenames, for every completion order. -/
theorem batch_results_complete (E : Ext) (abc : Bool) (bc : RGB) (br en : ℚ) (q : ℕ)
    (sr : SizeRatio) (uploaded_files completion_order : List UploadedFile)
    (hsize : uploaded_files.length ≤ MAX_FILES)
    (horder : completion_order.Perm (truncatedFiles uploaded_files))
    (hok : ∀ f ∈ uploaded_files, ∃ r, process_image E f abc bc br en q sr = Except.ok r) :
    (process_and_display_images E abc bc br en q sr completion_order).2 = none ∧
    (process_and_display_images E abc bc br en q sr completion_order).1.length =
      uploaded_files.length ∧
    ((process_and_display_images E abc bc br en q sr completion_order).1.map
        fun r => r.2.2).Perm
      (uploaded_files.map fun f => f.name) := by
  have htr : truncatedFiles uploaded_files = uploaded_files := by
    unfold truncatedFiles
    rw [if_neg]
    unfold MAX_FILES at hsize ⊢
    omega
  rw [htr] at horder
  have hok2 : ∀ f ∈ completion_order, ∃ r,
      process_image E f abc bc br en q sr = Except.ok r :=
    fun f hf => hok f (horder.mem_iff.mp hf)
  have hmain := displayCompleted_all_ok _ completion_order hok2
    fun f r hr => process_image_name E f abc bc br en q sr r hr
  unfold process_and_display_images
  refine ⟨hmain.1, ?_, ?_⟩
  · rw [hmain.2.1, horder.length_eq]
  · rw [hmain.2.2]
    exact horder.map _

/-- Witness for C5: a two-image batch completing in reversed order. -/
theorem batch_results_complete_witness :
    (process_and_display_images extOk true colW 1 1 95 DEFAULT_SIZE_RATIO [fileB, fileA]).2 =
      none ∧
    (process_and_display_images extOk true colW 1 1 95
        DEFAULT_SIZE_RATIO [fileB, fileA]).1.length =
      ([fileA, fileB] : List UploadedFile).length ∧
    ((process_and_display_images extOk true colW 1 1 95
          DEFAULT_SIZE_RATIO [fileB, fileA]).1.map
        fun r => r.2.2).Perm
      (([fileA, fileB] : List UploadedFile).map fun f => f.name) :=
  batch_results_complete extOk true colW 1 1 95 DEFAULT_SIZE_RATIO [fileA, fileB]
    [fileB, fileA] (by decide) (by decide)
    (by
      intro f hf
      rcases List.mem_cons.mp hf with rfl | hf2
      · exact ⟨_, rfl⟩
      · rcases List.mem_cons.mp hf2 with rfl | hf3
        · exact ⟨_, rfl⟩
        · exact absurd hf3 (by simp))

/-- C2 counterexample: with a decoder that fails on `fileBad`'s bytes and a
batch `[fileBad, fileB]` completing in that order, `fileB`'s pipeline would
succeed, yet the batch displays nothing and the decode error escapes the
display loop — the failure of one item aborts the rest of the batch, so the
claim that each image's pipeline failure is surfaced for that item only is
false on this code. -/
theorem batch_abort_counterexample :
    (∃ r, process_image extFail fileB true colW 1 1 95
        DEFAULT_SIZE_RATIO = Except.ok r) ∧
    process_and_display_images extFail true colW 1 1 95 DEFAULT_SIZE_RATIO
        [fileBad, fileB] =
      ([], some "DecodeError") :=
  ⟨⟨_, rfl⟩, rfl⟩

/-- C2 amended: the per-image tasks are submitted independently, but the
first failure (in completion order) escapes `process_and_display_images`:
exactly the results that completed before it are displayed and everything
after it is aborted. -/
theorem batch_abort_amended (E : Ext) (abc : Bool) (bc : RGB) (br en : ℚ) (q : ℕ)
    (sr : SizeRatio) (pre post : List UploadedFile) (bad : UploadedFile) (e : String)
    (hpre : ∀ f ∈ pre, ∃ r, process_image E f abc bc br en q sr = Except.ok r)
    (hbad : process_image E bad abc bc br en q sr = Except.error e) :
    (process_and_display_images E abc bc br en q sr (pre ++ bad :: post)).2 = some e ∧
    (process_and_display_images E abc bc br en q sr (pre ++ bad :: post)).1.length =
      pre.length := by
  unfold process_and_display_images
  exact displayCompleted_abort _ pre post bad e hpre hbad

/-- Witness for C2's amended claim: one success displayed, then the failure
escapes. -/
theorem batch_abort_amended_witness :
    (process_and_display_images extFail true colW 1 1 95 DEFAULT_SIZE_RATIO
        ([fileB] ++ fileBad :: [])).2 = some "DecodeError" ∧
    (process_and_display_images extFail true colW 1 1 95 DEFAULT_SIZE_RATIO
        ([fileB] ++ fileBad :: [])).1.length = ([fileB] : List UploadedFile).length :=
  batch_abort_amended extFail true colW 1 1 95 DEFAULT_SIZE_RATIO [fileB] [] fileBad
    "DecodeError"
    (by
      intro f hf
      rcases List.mem_cons.mp hf with rfl | hf2
      · exact ⟨_, rfl⟩
      · exact absurd hf2 (by simp))
    rfl

/-- C8: the quality setting has no effect on the pipeline's output: two runs
of `process_image` that differ only in the quality value produce identical
results, and in particular identical PNG download bytes — `img_to_bytes`
itself takes no quality argument and hardcodes `DEFAULT_QUALITY` in the
save call. -/
theorem quality_noninterference (E : Ext) (file : UploadedFile) (abc : Bool) (bc : RGB)
    (br en : ℚ) (q1 q2 : ℕ) (sr : SizeRatio) :
    process_image E file abc bc br en q1 sr = process_image E file abc bc br en q2 sr ∧
    (process_image E file abc bc br en q1 sr).map
        (fun r => download_result E r.2.1 r.2.2) =
      (process_image E file abc bc br en q2 sr).map
        fun r => download_result E r.2.1 r.2.2 :=
  ⟨rfl, rfl⟩

/-- C9: for a filename of the form `stem.ext` (nonempty stem and extension,
no further dots or separators), the download action offers the PNG bytes of
the transformed image under `<stem>_nobg.png` with MIME type `image/png`. -/
theorem download_result_spec (E : Ext) (image : Img) (stem ext : List Char)
    (hstem0 : stem ≠ []) (hstemDot : '.' ∉ stem) (hstemSlash : '/' ∉ stem)
    (hext0 : ext ≠ []) (hextDot : '.' ∉ ext) (hextSlash : '/' ∉ ext) :
    download_result E image (String.mk (stem ++ '.' :: ext)) =
      DownloadButton.mk "Unduh Hasil" (img_to_bytes E image)
        (String.mk stem ++ "_nobg.png") "image/png" := by
  have hslash : rfindChar '/' (stem ++ '.' :: ext) = none := by
    apply rfindChar_eq_none
    intro hmem
    rcases List.mem_append.mp hmem with h | h
    · exact hstemSlash h
    · rcases List.mem_cons.mp h with h2 | h2
      · exact absurd h2 (by decide)
      · exact hextSlash h2
  have hdot : rfindChar '.' (stem ++ '.' :: ext) = some stem.length :=
    rfindChar_append_sep '.' stem ext hextDot
  have hps : pathStem (String.mk (stem ++ '.' :: ext)) = String.mk stem := by
    unfold pathStem lastComponent
    rw [show (String.mk (stem ++ '.' :: ext)).data = stem ++ '.' :: ext from rfl, hslash]
    simp only [dropUntilSep]
    rw [hdot]
    simp only [stemFrom]
    rw [if_pos ⟨List.length_pos.mpr hstem0, by
      simp only [List.length_append, List.length_cons]
      have := List.length_pos.mpr hext0
      omega⟩]
    rw [List.take_left]
  unfold download_result
  rw [hps]

/-- Witness for C9 at the concrete filename `photo.jpg`. -/
theorem download_result_spec_witness :
    download_result extOk imgW
        (String.mk ['p', 'h', 'o', 't', 'o', '.', 'j', 'p', 'g']) =
      DownloadButton.mk "Unduh Hasil" (img_to_bytes extOk imgW)
        (String.mk ['p', 'h', 'o', 't', 'o'] ++ "_nobg.png") "image/png" :=
  download_result_spec extOk imgW ['p', 'h', 'o', 't', 'o'] ['j', 'p', 'g'] (by decide)
    (by decide) (by decide) (by decide) (by decide) (by decide)

/-- Witness for C10: a concrete run with the default ratio. -/
theorem no_resize_iff_default_witness :
    (∀ oW oH sr, computeNewSize oW oH sr = none ↔ sr = DEFAULT_SIZE_RATIO) ∧
    (∃ res : Img,
      process_image extOk fileA true colW 1 1 95 DEFAULT_SIZE_RATIO =
          Except.ok (imgW, res, fileA.name) ∧
        res.width = imgW.width ∧ res.height = imgW.height) ∧
    ∀ oW oH lbl, computeNewSize oW oH (SizeRatio.triple 4 3 lbl) =
      some (newWidth oH 3 4, oH) :=
  no_resize_iff_default extOk fileA true colW 1 1 95 imgW imgW rfl rfl

end BgRemover
